import Mathlib

/-!
# Verification development for the svelte-fancy-stores load/reload engine

Shallow embedding of `src/index.ts` (the async-store dependency-graph
load/reload/cache engine).  The JavaScript runtime here is single-threaded and
cooperative, so every promise that a claim talks about is modelled by its
settled outcome (`Except E V`) together with an identity tag (`pid`) so that
"returns the existing `currentLoadPromise` unchanged" is expressible.
`JSON.stringify` is an external function of the runtime and is passed in as an
abstract serialization parameter `stringifyVals`.  JS `undefined` is modelled
by `Option.none` wherever the source distinguishes it (`initial`,
`loadedValuesString`, `currentLoadPromise`, the write-function response).
-/

set_option autoImplicit false

namespace FancyStores

universe u v

/-- A settled JS promise: an identity (`pid`, so that promise *reference*
equality is expressible) together with its settled outcome. -/
structure Prom (E V : Type) where
  pid : Nat
  result : Except E V

/-- A dependency store as the engine observes it: its current synchronous
value (`get(store)`), and — when the corresponding own-property exists on the
object — the settled promise produced by calling `load()` / `reload()`.
`none` models the absence of the property (the store is not Loadable /
not Reloadable). -/
structure DepStore (E V : Type) where
  value : V
  load : Option (Prom E V)
  reload : Option (Prom E V)

/-- The `Stores` input shape of the source: either a bare store or an array of
stores (`Array.isArray` distinguishes the two). -/
inductive StoresArg (E V : Type) where
  | one : DepStore E V → StoresArg E V
  | many : List (DepStore E V) → StoresArg E V

/-- Source `getStoresArray`: `Array.isArray(stores) ? stores : [stores]`. -/
def getStoresArray {E V : Type} : StoresArg E V → List (DepStore E V)
  | .one s => [s]
  | .many l => l

/-- `Array.isArray(stores)` for the two input shapes. -/
def StoresArg.isArray {E V : Type} : StoresArg E V → Bool
  | .one _ => false
  | .many _ => true

/-- Source `isLoadable`: `hasOwnProperty(store, 'load')`. -/
def isLoadable {E V : Type} (store : DepStore E V) : Bool :=
  store.load.isSome

/-- Source `isReloadable`: `hasOwnProperty(store, 'reload')`. -/
def isReloadable {E V : Type} (store : DepStore E V) : Bool :=
  store.reload.isSome

/-- Source `anyLoadable`: `getStoresArray(stores).some(isLoadable)`. -/
def anyLoadable {E V : Type} (stores : StoresArg E V) : Bool :=
  (getStoresArray stores).any isLoadable

/-- Source `anyReloadable`: `getStoresArray(stores).some(isReloadable)`. -/
def anyReloadable {E V : Type} (stores : StoresArg E V) : Bool :=
  (getStoresArray stores).any isReloadable

/-- `Promise.all` over already-settled outcomes: resolves to the list of values
when every entry resolves, in input order, and otherwise rejects with the first
rejection in input order (already-settled promises reject the aggregate in
attach order). -/
def promiseAll {E V : Type} : List (Except E V) → Except E (List V)
  | [] => .ok []
  | x :: xs =>
    match x with
    | .error e => .error e
    | .ok v =>
      match promiseAll xs with
      | .ok vs => .ok (v :: vs)
      | .error e => .error e

/-- The per-element arrow function of `loadAll`:
`hasOwnProperty(store, 'load') ? store.load() : get(store)`. -/
def storeLoadResult {E V : Type} (store : DepStore E V) : Except E V :=
  match store.load with
  | some p => p.result
  | none => Except.ok store.value

/-- The per-element arrow function of `reloadAll`:
`reload` if present, else `load` if present, else `get(store)`. -/
def storeReloadResult {E V : Type} (store : DepStore E V) : Except E V :=
  match store.reload with
  | some p => p.result
  | none =>
    match store.load with
    | some p => p.result
    | none => Except.ok store.value

/-- Source `loadAll`: map every store of the (possibly singleton) input to its
`load()` promise (Loadable) or current value (otherwise) and join with
`Promise.all`. -/
def loadAll {E V : Type} (stores : StoresArg E V) : Except E (List V) :=
  promiseAll ((getStoresArray stores).map storeLoadResult)

/-- Source `reloadAll`: like `loadAll` but with the reload-or-load-or-read
fallback per store. -/
def reloadAll {E V : Type} (stores : StoresArg E V) : Except E (List V) :=
  promiseAll ((getStoresArray stores).map storeReloadResult)

/-! ## Dispatcher lemmas -/

theorem promiseAll_ok_iff {E V : Type} (l : List (Except E V)) (vs : List V) :
    promiseAll l = .ok vs ↔ List.Forall₂ (fun x v => x = Except.ok v) l vs := by
  induction l generalizing vs with
  | nil =>
    cases vs <;> simp [promiseAll, List.Forall₂]
  | cons x xs ih =>
    cases x with
    | error e =>
      simp only [promiseAll]
      constructor
      · intro h; cases h
      · intro h; cases h with
        | cons hx _ => cases hx
    | ok v =>
      cases hall : promiseAll xs with
      | ok ws =>
        cases vs with
        | nil =>
          simp only [promiseAll, hall]
          constructor
          · intro h; cases h
          · intro h; cases h
        | cons v' vs' =>
          simp only [promiseAll, hall]
          constructor
          · intro h
            cases h
            exact List.Forall₂.cons rfl ((ih _).mp hall)
          · intro h
            cases h with
            | cons hx htail =>
              cases hx
              have := ((ih _).mpr htail)
              rw [hall] at this
              cases this
              rfl
      | error e =>
        simp only [promiseAll, hall]
        constructor
        · intro h; cases h
        · intro h
          cases h with
          | cons hx htail =>
            have := (ih _).mpr htail
            rw [hall] at this
            cases this

theorem promiseAll_first_error {E V : Type} (pre : List (Except E V))
    (e : E) (post : List (Except E V))
    (hpre : ∀ x ∈ pre, ∃ v, x = Except.ok v) :
    promiseAll (pre ++ Except.error e :: post) = .error e := by
  induction pre with
  | nil => simp [promiseAll]
  | cons x xs ih =>
    obtain ⟨v, hv⟩ := hpre x (by simp)
    subst hv
    have := ih (fun y hy => hpre y (by simp [hy]))
    simp only [List.cons_append, promiseAll, List.append_eq, this]

/-! ## The async derivation / writable engine -/

/-- The argument handed to `mappingLoadFunction`: the source passes
`storeValues[0]` (possibly `undefined`, hence `Option`) when the dependency
set was declared as a single bare store, and the whole array otherwise. -/
inductive MapArg (V : Type) where
  | single : Option V → MapArg V
  | arr : List V → MapArg V

/-- `Array.isArray(stores) ? storeValues : storeValues[0]` from the source. -/
def mappingInput {V : Type} (isArr : Bool) (storeValues : List V) : MapArg V :=
  if isArr then .arr storeValues else .single storeValues.head?

/-- The private mutable fields of one async store instance, plus the value of
its backing cell (`thisStore`) and bookkeeping for the model: `nextPid` mints
fresh promise identities, and `mapCalls` counts invocations of
`mappingLoadFunction` (it also serves as the invocation index handed to the
modelled mapping function, so a stateful mock such as the tests' `mockReload`
is expressible). -/
structure EngineState (E V : Type) where
  loadedValuesString : Option String
  currentLoadPromise : Option (Prom E V)
  cell : Option V
  nextPid : Nat
  mapCalls : Nat

/-- The engine state right after construction: `loadedValuesString` and
`currentLoadPromise` are still `undefined` and the cell holds the configured
`initial` value (`none` models JS `undefined`, the default). -/
def initState {E V : Type} (initial : Option V) : EngineState E V :=
  { loadedValuesString := none, currentLoadPromise := none, cell := initial,
    nextPid := 0, mapCalls := 0 }

/-- What one run of the `loadDependenciesThenSet` body produces: the engine
state at the moment the async function returns, the promise it returns
(`none` models returning an `undefined` `currentLoadPromise`), and the newly
created mapping-chain promise when step 4 ran (`none` when the cycle
short-circuited in the parent-failure or dedup branch).  The `.then` handler
attached to `started` publishes later, when that promise settles — see
`thenHandler`. -/
structure CycleResult (E V : Type) where
  state : EngineState E V
  ret : Option (Prom E V)
  started : Option (Prom E V)

/-- Source `loadDependenciesThenSet` (the unforced/forced cycle core), one run:
`loadParentStores` is the settled `parentLoadFunction(stores)` promise
(`loadAll` or `reloadAll` applied to the dependency set), and `depVals` is the
list of `get(store)` reads performed *after* that await resumes (dependency
values current at resume time).  On parent rejection the parent promise itself
is recorded and returned (original error, no wrapping, mapping never invoked).
Otherwise, unless an unforced cycle finds the serialized tuple equal to the
recorded key (in which case the existing `currentLoadPromise` is returned with
no state change at all), the key is recorded (unforced only), the mapping
function is invoked once, and the resulting chain becomes the new
`currentLoadPromise`. -/
def loadDependenciesThenSet {E V : Type} (isArr : Bool)
    (mappingLoadFunction : Nat → MapArg V → Except E V)
    (stringifyVals : List V → String)
    (st : EngineState E V) (loadParentStores : Prom E (List V))
    (depVals : List V) (forceReload : Bool) : CycleResult E V :=
  match loadParentStores.result with
  | .error e =>
    let failed : Prom E V := { pid := loadParentStores.pid, result := .error e }
    { state := { st with currentLoadPromise := some failed },
      ret := some failed, started := none }
  | .ok _ =>
    let storeValues := depVals
    let newValuesString := stringifyVals storeValues
    if forceReload = false ∧ some newValuesString = st.loadedValuesString then
      { state := st, ret := st.currentLoadPromise, started := none }
    else
      let st1 := if forceReload = false then
        { st with loadedValuesString := some newValuesString } else st
      let finalValue := mappingLoadFunction st1.mapCalls (mappingInput isArr storeValues)
      let currentLoadPromise : Prom E V := { pid := st1.nextPid, result := finalValue }
      { state :=
          { st1 with
            currentLoadPromise := some currentLoadPromise,
            nextPid := st1.nextPid + 1,
            mapCalls := st1.mapCalls + 1 },
        ret := some currentLoadPromise, started := some currentLoadPromise }

/-- The `.then((finalValue) => (set(finalValue), finalValue))` handler attached
to a started mapping chain: when that promise resolves, its value is published
to the cell unconditionally; when it rejects, nothing is published. -/
def thenHandler {E V : Type} (st : EngineState E V) (p : Prom E V) :
    EngineState E V :=
  match p.result with
  | .ok finalValue => { st with cell := some finalValue }
  | .error _ => st

/-- One cycle run to quiescence: the cycle body, then — when a mapping chain
was started — its `.then` handler once it settles (no interleaving with other
cycles).  Returns the resulting state and the promise `load`/`reload` returned
to its caller. -/
def loadCycleRun {E V : Type} (isArr : Bool)
    (mappingLoadFunction : Nat → MapArg V → Except E V)
    (stringifyVals : List V → String)
    (st : EngineState E V) (loadParentStores : Prom E (List V))
    (depVals : List V) (forceReload : Bool) :
    EngineState E V × Option (Prom E V) :=
  let r := loadDependenciesThenSet isArr mappingLoadFunction stringifyVals st
    loadParentStores depVals forceReload
  match r.started with
  | some p => (thenHandler r.state p, r.ret)
  | none => (r.state, r.ret)

/-- A sequence of unforced triggering events (subscription notifications or
explicit `load()` calls), each carrying the settled parent-load promise and the
dependency values read when that cycle resumes, run to quiescence in order. -/
def runTriggers {E V : Type} (isArr : Bool)
    (mappingLoadFunction : Nat → MapArg V → Except E V)
    (stringifyVals : List V → String) :
    EngineState E V → List (Prom E (List V) × List V) → EngineState E V
  | st, [] => st
  | st, t :: ts =>
    runTriggers isArr mappingLoadFunction stringifyVals
      (loadCycleRun isArr mappingLoadFunction stringifyVals st t.1 t.2 false).1 ts

/-- The `get(store)` reads the engine performs over its dependency set. -/
def currentValues {E V : Type} (stores : StoresArg E V) : List V :=
  (getStoresArray stores).map DepStore.value

/-- The synchronous optimistic publish at the top of
`setStoreValueThenWrite`: `thisStore.set(value)` before any await. -/
def setOptimistic {E V : Type} (st : EngineState E V) (value : V) :
    EngineState E V :=
  { st with cell := some value }

/-- Source `setStoreValueThenWrite` (the write path of `asyncWritable`):
publish the optimistic value synchronously, await a non-forced `loadAll` of
the dependency set, invoke `mappingWriteFunction(value, parentValues)`
(outcome `Except E (Option V)`, where `none` models a `void`/`undefined`
resolution), republish the response iff it is not `undefined`, and — when the
store was constructed reloadable — run a forced reload cycle whose rejection
also rejects `set`'s promise.  Any rejection along the way rejects the
returned promise with the original error; the optimistic value stays
published. -/
def setStoreValueThenWrite {E V : Type} (stores : StoresArg E V)
    (mappingLoadFunction : Nat → MapArg V → Except E V)
    (mappingWriteFunction : V → List V → Except E (Option V))
    (reloadable : Bool) (stringifyVals : List V → String)
    (st : EngineState E V) (value : V) :
    EngineState E V × Except E Unit :=
  let st1 := setOptimistic st value
  match loadAll stores with
  | .error e => (st1, .error e)
  | .ok parentValues =>
    match mappingWriteFunction value parentValues with
    | .error e => (st1, .error e)
    | .ok writeResponse =>
      let st2 := match writeResponse with
        | some r => { st1 with cell := some r }
        | none => st1
      if reloadable then
        let parentPid := st2.nextPid
        let st3 := { st2 with nextPid := st2.nextPid + 1 }
        let run := loadCycleRun stores.isArray mappingLoadFunction stringifyVals
          st3 { pid := parentPid, result := reloadAll stores }
          (currentValues stores) reloadable
        (run.1, match run.2 with
          | some p =>
            match p.result with
            | .ok _ => .ok ()
            | .error e => .error e
          | none => .ok ())
      else (st2, .ok ())

/-! ## The public construction surface -/

/-- The object returned by `asyncWritable`: `load` and (conditionally)
`reload` trigger an engine cycle (parent promise identity supplied by the
runtime as `pid`), `set` runs the write path.  A `none` `reload` models the
property being absent from the returned object. -/
structure WritableLoadableObj (E V : Type) where
  load : EngineState E V → Nat → EngineState E V × Option (Prom E V)
  reload : Option (EngineState E V → Nat → EngineState E V × Option (Prom E V))
  set : EngineState E V → V → EngineState E V × Except E Unit

/-- The object returned by `asyncDerived` / `asyncReadable` (no `set`). -/
structure LoadableObj (E V : Type) where
  load : EngineState E V → Nat → EngineState E V × Option (Prom E V)
  reload : Option (EngineState E V → Nat → EngineState E V × Option (Prom E V))

/-- Source `asyncWritable`: `load` runs an unforced cycle over `loadAll`;
`reload` — exposed iff `reloadable || anyReloadable(stores)` — runs a cycle
over `reloadAll` with `forceReload := reloadable`; `set` is
`setStoreValueThenWrite`. -/
def asyncWritable {E V : Type} (stores : StoresArg E V)
    (mappingLoadFunction : Nat → MapArg V → Except E V)
    (mappingWriteFunction : V → List V → Except E (Option V))
    (reloadable : Bool) (stringifyVals : List V → String) :
    WritableLoadableObj E V :=
  let hasReloadFunction := reloadable || anyReloadable stores
  { load := fun st pid =>
      loadCycleRun stores.isArray mappingLoadFunction stringifyVals st
        { pid := pid, result := loadAll stores } (currentValues stores) false,
    reload :=
      if hasReloadFunction then
        some (fun st pid =>
          loadCycleRun stores.isArray mappingLoadFunction stringifyVals st
            { pid := pid, result := reloadAll stores } (currentValues stores)
            reloadable)
      else none,
    set := setStoreValueThenWrite stores mappingLoadFunction
      mappingWriteFunction reloadable stringifyVals }

/-- Source `asyncDerived`: builds the `asyncWritable` object (its
`mappingWriteFunction` argument is `undefined` in the source and the `set`
member is dropped, so an arbitrary placeholder is passed here) and re-exposes
`subscribe`/`load`, spreading `reload` only when present. -/
def asyncDerived {E V : Type} (stores : StoresArg E V)
    (mappingLoadFunction : Nat → MapArg V → Except E V)
    (reloadable : Bool) (stringifyVals : List V → String) : LoadableObj E V :=
  let thisStore := asyncWritable stores mappingLoadFunction
    (fun _ _ => Except.ok none) reloadable stringifyVals
  { load := thisStore.load, reload := thisStore.reload }

/-- Source `asyncReadable`: `asyncDerived([], loadFunction, reloadable)` (the
empty dependency array; the load function takes no store values). -/
def asyncReadable {E V : Type} (loadFunction : Nat → Except E V)
    (reloadable : Bool) (stringifyVals : List V → String) : LoadableObj E V :=
  asyncDerived (.many []) (fun n _ => loadFunction n) reloadable stringifyVals

/-! ## Synchronous derivation with inherited capabilities -/

/-- Source `loadDependencies` (helper of the synchronous `derived`):
`async () => (await loadFunction(stores), get(thisStore))` — await the
dispatcher over the dependency set, then resolve to the store's
already-recomputed current value; no recomputation of its own. -/
def loadDependencies {E V T : Type} (thisStoreValue : T)
    (loadFunctionResult : Except E (List V)) : Except E T :=
  match loadFunctionResult with
  | .ok _ => Except.ok thisStoreValue
  | .error e => Except.error e

/-- The object returned by the synchronous `derived`: the settled outcomes of
its `load` and `reload` members when present (`none` models the property
being absent). -/
structure DerivedObj (E T : Type) where
  load : Option (Except E T)
  reload : Option (Except E T)

/-- The current value of the backing cell of a synchronous `derived` store:
the external `vanillaDerived` recomputes eagerly on every parent change, so
`get(thisStore)` is the mapping function applied to the current parent values
(the bare value for a single-store dependency, the value array otherwise). -/
def derivedValue {E V T : Type} (stores : StoresArg E V)
    (mappingFunction : MapArg V → T) : T :=
  mappingFunction (match stores with
    | .one s => .single (some s.value)
    | .many l => .arr (l.map DepStore.value))

/-- Source `derived`: the backing cell is the external `vanillaDerived`
(eager recomputation on parent change), so its current value is the mapping
function applied to the current parent values; `load` is spread onto the
object iff `anyLoadable(stores)` and delegates to `loadAll`, `reload` iff
`anyReloadable(stores)` delegating to `reloadAll`. -/
def derived {E V T : Type} (stores : StoresArg E V)
    (mappingFunction : MapArg V → T) : DerivedObj E T :=
  let thisStoreValue := derivedValue stores mappingFunction
  { load :=
      if anyLoadable stores then
        some (loadDependencies thisStoreValue (loadAll stores))
      else none,
    reload :=
      if anyReloadable stores then
        some (loadDependencies thisStoreValue (reloadAll stores))
      else none }

/-! ## Engine lemmas -/

theorem loadDependenciesThenSet_parent_error {E V : Type} (isArr : Bool)
    (f : Nat → MapArg V → Except E V) (sv : List V → String)
    (st : EngineState E V) (parent : Prom E (List V)) (depVals : List V)
    (force : Bool) (e : E) (hpar : parent.result = .error e) :
    loadDependenciesThenSet isArr f sv st parent depVals force =
      { state :=
          { st with
            currentLoadPromise := some { pid := parent.pid, result := .error e } },
        ret := some { pid := parent.pid, result := .error e },
        started := none } := by
  unfold loadDependenciesThenSet
  rw [hpar]

theorem dedup_hit {E V : Type} (isArr : Bool)
    (f : Nat → MapArg V → Except E V) (sv : List V → String)
    (st : EngineState E V) (parent : Prom E (List V))
    (pvals depVals : List V)
    (hpar : parent.result = .ok pvals)
    (hkey : st.loadedValuesString = some (sv depVals)) :
    loadDependenciesThenSet isArr f sv st parent depVals false =
      { state := st, ret := st.currentLoadPromise, started := none } := by
  unfold loadDependenciesThenSet
  rw [hpar]
  simp [hkey]

theorem loadDependenciesThenSet_fresh {E V : Type} (isArr : Bool)
    (f : Nat → MapArg V → Except E V) (sv : List V → String)
    (st : EngineState E V) (parent : Prom E (List V))
    (pvals depVals : List V)
    (hpar : parent.result = .ok pvals)
    (hkey : st.loadedValuesString ≠ some (sv depVals)) :
    loadDependenciesThenSet isArr f sv st parent depVals false =
      { state :=
          { loadedValuesString := some (sv depVals),
            currentLoadPromise :=
              some ⟨st.nextPid, f st.mapCalls (mappingInput isArr depVals)⟩,
            cell := st.cell, nextPid := st.nextPid + 1,
            mapCalls := st.mapCalls + 1 },
        ret := some ⟨st.nextPid, f st.mapCalls (mappingInput isArr depVals)⟩,
        started :=
          some ⟨st.nextPid, f st.mapCalls (mappingInput isArr depVals)⟩ } := by
  unfold loadDependenciesThenSet
  rw [hpar]
  have : ¬ (some (sv depVals) = st.loadedValuesString) := fun h => hkey h.symm
  simp [this]

theorem loadDependenciesThenSet_forced {E V : Type} (isArr : Bool)
    (f : Nat → MapArg V → Except E V) (sv : List V → String)
    (st : EngineState E V) (parent : Prom E (List V))
    (pvals depVals : List V)
    (hpar : parent.result = .ok pvals) :
    loadDependenciesThenSet isArr f sv st parent depVals true =
      { state :=
          { st with
            currentLoadPromise :=
              some ⟨st.nextPid, f st.mapCalls (mappingInput isArr depVals)⟩,
            nextPid := st.nextPid + 1, mapCalls := st.mapCalls + 1 },
        ret := some ⟨st.nextPid, f st.mapCalls (mappingInput isArr depVals)⟩,
        started :=
          some ⟨st.nextPid, f st.mapCalls (mappingInput isArr depVals)⟩ } := by
  unfold loadDependenciesThenSet
  rw [hpar]
  simp

theorem thenHandler_preserves {E V : Type} (st : EngineState E V)
    (p : Prom E V) :
    (thenHandler st p).loadedValuesString = st.loadedValuesString ∧
    (thenHandler st p).currentLoadPromise = st.currentLoadPromise ∧
    (thenHandler st p).nextPid = st.nextPid ∧
    (thenHandler st p).mapCalls = st.mapCalls := by
  unfold thenHandler
  cases p.result <;> simp

theorem loadCycleRun_dedup {E V : Type} (isArr : Bool)
    (f : Nat → MapArg V → Except E V) (sv : List V → String)
    (st : EngineState E V) (parent : Prom E (List V))
    (pvals depVals : List V)
    (hpar : parent.result = .ok pvals)
    (hkey : st.loadedValuesString = some (sv depVals)) :
    loadCycleRun isArr f sv st parent depVals false =
      (st, st.currentLoadPromise) := by
  unfold loadCycleRun
  rw [dedup_hit isArr f sv st parent pvals depVals hpar hkey]

theorem loadCycleRun_fresh_fields {E V : Type} (isArr : Bool)
    (f : Nat → MapArg V → Except E V) (sv : List V → String)
    (st : EngineState E V) (parent : Prom E (List V))
    (pvals depVals : List V)
    (hpar : parent.result = .ok pvals)
    (hkey : st.loadedValuesString ≠ some (sv depVals)) :
    (loadCycleRun isArr f sv st parent depVals false).1.loadedValuesString =
        some (sv depVals) ∧
    (loadCycleRun isArr f sv st parent depVals false).1.mapCalls =
        st.mapCalls + 1 := by
  have h := loadDependenciesThenSet_fresh isArr f sv st parent pvals depVals hpar hkey
  unfold loadCycleRun
  rw [h]
  cases hres : f st.mapCalls (mappingInput isArr depVals) <;>
    simp [thenHandler, hres]

theorem runTriggers_stable {E V : Type} (isArr : Bool)
    (f : Nat → MapArg V → Except E V) (sv : List V → String)
    (st : EngineState E V) (k : String)
    (ts : List (Prom E (List V) × List V))
    (hkey : st.loadedValuesString = some k)
    (hts : ∀ t ∈ ts, (∃ pv, t.1.result = Except.ok pv) ∧ sv t.2 = k) :
    runTriggers isArr f sv st ts = st := by
  induction ts with
  | nil => rfl
  | cons t ts ih =>
    obtain ⟨⟨pv, hpv⟩, hk⟩ := hts t (by simp)
    have hcycle : loadCycleRun isArr f sv st t.1 t.2 false =
        (st, st.currentLoadPromise) :=
      loadCycleRun_dedup isArr f sv st t.1 pv t.2 hpv (by rw [hk]; exact hkey)
    show runTriggers isArr f sv (loadCycleRun isArr f sv st t.1 t.2 false).1 ts = st
    rw [hcycle]
    exact ih (fun t ht => hts t (by simp [ht]))

theorem runTriggers_mapCalls_le {E V : Type} (isArr : Bool)
    (f : Nat → MapArg V → Except E V) (sv : List V → String)
    (st : EngineState E V) (k : String)
    (ts : List (Prom E (List V) × List V))
    (hts : ∀ t ∈ ts, (∃ pv, t.1.result = Except.ok pv) ∧ sv t.2 = k) :
    (runTriggers isArr f sv st ts).mapCalls ≤ st.mapCalls + 1 := by
  cases ts with
  | nil => exact Nat.le_succ _
  | cons t ts =>
    obtain ⟨⟨pv, hpv⟩, hk⟩ := hts t (by simp)
    by_cases hkey : st.loadedValuesString = some k
    · rw [runTriggers_stable isArr f sv st k (t :: ts) hkey hts]
      exact Nat.le_succ _
    · have hkey' : st.loadedValuesString ≠ some (sv t.2) := by
        rw [hk]; exact hkey
      obtain ⟨hkf, hmf⟩ :=
        loadCycleRun_fresh_fields isArr f sv st t.1 pv t.2 hpv hkey'
      show (runTriggers isArr f sv
        (loadCycleRun isArr f sv st t.1 t.2 false).1 ts).mapCalls ≤ st.mapCalls + 1
      rw [runTriggers_stable isArr f sv _ k ts (by rw [hkf, hk])
        (fun t ht => hts t (by simp [ht]))]
      rw [hmf]

/-! ## Concrete fixtures used by the witnesses and the counterexample -/

/-- A concrete stand-in for `JSON.stringify` on a value tuple. -/
def wStringify : List String → String := fun vs => String.intercalate "," vs

/-- A concrete stateful mapping function (like the tests' `mockReload`): the
first invocation resolves to `fA`, every later one to `fB`. -/
def wMapFn : Nat → MapArg String → Except String String :=
  fun n _ => Except.ok (if n = 0 then "fA" else "fB")

/-- A concrete settled `currentLoadPromise`. -/
def wProm : Prom String String := ⟨7, Except.ok "cached"⟩

/-- A concrete engine state that has already recorded the key of `["A"]` and
holds `wProm` as its current load promise. -/
def wDedupState : EngineState String String :=
  { loadedValuesString := some (wStringify ["A"]),
    currentLoadPromise := some wProm,
    cell := some "cached", nextPid := 8, mapCalls := 1 }

/-- A concrete resolved parent-load promise carrying `["A"]`. -/
def wOkParent : Prom String (List String) := ⟨3, Except.ok ["A"]⟩

/-- Fixture stores mirroring the repository's own test fixtures. -/
def myNonAsync : DepStore String String :=
  { value := "A", load := none, reload := none }

/-- Loadable fixture: `load()` resolves to `B`. -/
def myLoadable : DepStore String String :=
  { value := "A", load := some ⟨1, Except.ok "B"⟩, reload := none }

/-- Reloadable fixture: `load()` resolves to `C`, `reload()` to `D`. -/
def myReloadable : DepStore String String :=
  { value := "A", load := some ⟨2, Except.ok "C"⟩,
    reload := some ⟨3, Except.ok "D"⟩ }

/-- Failing fixture: `load()` rejects with `E`, `reload()` with `F`. -/
def badLoadable : DepStore String String :=
  { value := "A", load := some ⟨4, Except.error "E"⟩,
    reload := some ⟨5, Except.error "F"⟩ }

/-! ## Claim C1 -/

/-- C1: an unforced load cycle whose resolved dependency values serialize to
the previously recorded memoization key returns the existing
`currentLoadPromise` unchanged, with no state change at all (so no new
asynchronous work and no new publication); consequently, over any sequence of
triggering events whose dependency values all serialize to one fixed key, the
mapping load function is invoked at most once (at most one increment of the
invocation counter). -/
theorem claim_C1_dedup_guarantee (E V : Type) :
    (∀ (isArr : Bool) (f : Nat → MapArg V → Except E V) (sv : List V → String)
        (st : EngineState E V) (parent : Prom E (List V))
        (pvals depVals : List V),
        parent.result = Except.ok pvals →
        st.loadedValuesString = some (sv depVals) →
        loadDependenciesThenSet isArr f sv st parent depVals false =
          { state := st, ret := st.currentLoadPromise, started := none }) ∧
    (∀ (isArr : Bool) (f : Nat → MapArg V → Except E V) (sv : List V → String)
        (st : EngineState E V) (k : String)
        (ts : List (Prom E (List V) × List V)),
        (∀ t ∈ ts, (∃ pv, t.1.result = Except.ok pv) ∧ sv t.2 = k) →
        (runTriggers isArr f sv st ts).mapCalls ≤ st.mapCalls + 1 ∧
        (st.loadedValuesString = some k → runTriggers isArr f sv st ts = st)) :=
  ⟨fun isArr f sv st parent pvals depVals hpar hkey =>
      dedup_hit isArr f sv st parent pvals depVals hpar hkey,
    fun isArr f sv st k ts hts =>
      ⟨runTriggers_mapCalls_le isArr f sv st k ts hts,
        fun hkey => runTriggers_stable isArr f sv st k ts hkey hts⟩⟩

/-- Witness for C1 at a concrete dedup hit: the repeated-key cycle returns the
cached promise and changes nothing. -/
theorem claim_C1_witness :
    loadDependenciesThenSet false wMapFn wStringify wDedupState wOkParent
        ["A"] false =
      { state := wDedupState, ret := wDedupState.currentLoadPromise,
        started := none } :=
  (claim_C1_dedup_guarantee String String).1 false wMapFn wStringify
    wDedupState wOkParent ["A"] ["A"] rfl rfl

/-! ## Claim C3 -/

/-- C3: `loadAll` maps each Loadable element to its `load()` outcome and each
other element to its synchronously read value; it resolves exactly when every
element does, to the values in input order (a single bare store resolving to a
single-element list); and it rejects with precisely the error of the first
failing element, surfacing no other element's result. -/
theorem claim_C3_loadAll_spec (E V : Type) :
    (∀ (store : DepStore E V) (p : Prom E V),
        store.load = some p → storeLoadResult store = p.result) ∧
    (∀ store : DepStore E V,
        store.load = none → storeLoadResult store = Except.ok store.value) ∧
    (∀ (s : DepStore E V) (v : V),
        storeLoadResult s = Except.ok v →
        loadAll (.one s) = Except.ok [v]) ∧
    (∀ (stores : StoresArg E V) (vs : List V),
        loadAll stores = Except.ok vs ↔
          List.Forall₂ (fun s v => storeLoadResult s = Except.ok v)
            (getStoresArray stores) vs) ∧
    (∀ (stores : StoresArg E V) (pre : List (DepStore E V))
        (s : DepStore E V) (post : List (DepStore E V)) (e : E),
        getStoresArray stores = pre ++ s :: post →
        (∀ s' ∈ pre, ∃ v, storeLoadResult s' = Except.ok v) →
        storeLoadResult s = Except.error e →
        loadAll stores = Except.error e) := by
  refine ⟨?_, ?_, ?_, ?_, ?_⟩
  · intro store p h
    unfold storeLoadResult
    rw [h]
  · intro store h
    unfold storeLoadResult
    rw [h]
  · intro s v h
    unfold loadAll getStoresArray
    simp [promiseAll, h]
  · intro stores vs
    unfold loadAll
    rw [promiseAll_ok_iff]
    exact List.forall₂_map_left_iff
  · intro stores pre s post e harr hpre hs
    unfold loadAll
    rw [harr, List.map_append, List.map_cons, hs]
    refine promiseAll_first_error _ e _ ?_
    intro x hx
    obtain ⟨s', hs', rfl⟩ := List.mem_map.mp hx
    exact hpre s' hs'

/-- Witness for C3, mirroring the repository's own test cases: one bare
Loadable resolves to a singleton, a mixed list resolves in input order, and a
rejecting element rejects the aggregate with exactly its error. -/
theorem claim_C3_witness :
    loadAll (.one myLoadable) = Except.ok ["B"] ∧
    loadAll (.many [myNonAsync, myLoadable, myReloadable]) =
      Except.ok ["A", "B", "C"] ∧
    loadAll (.many [myLoadable, badLoadable]) = Except.error "E" :=
  ⟨(claim_C3_loadAll_spec String String).2.2.1 myLoadable "B" rfl,
    ((claim_C3_loadAll_spec String String).2.2.2.1
        (.many [myNonAsync, myLoadable, myReloadable]) ["A", "B", "C"]).mpr
      (.cons rfl (.cons rfl (.cons rfl .nil))),
    (claim_C3_loadAll_spec String String).2.2.2.2
      (.many [myLoadable, badLoadable]) [myLoadable] badLoadable [] "E"
      rfl
      (by
        intro s' hs'
        rw [List.mem_singleton] at hs'
        subst hs'
        exact ⟨"B", rfl⟩)
      rfl⟩

/-! ## Claim C4 -/

/-- C4: `reloadAll` maps each element to its `reload()` outcome when the
element exposes `reload`, otherwise to its `load()` outcome when it exposes
`load`, otherwise to its synchronously read value, and joins exactly as
`loadAll` does (all-or-nothing, input order, first failing element's error);
in particular only elements exposing `reload` have asynchronous work
re-executed: when no element exposes `reload`, `reloadAll` coincides with
`loadAll`. -/
theorem claim_C4_reloadAll_spec (E V : Type) :
    (∀ (store : DepStore E V) (p : Prom E V),
        store.reload = some p → storeReloadResult store = p.result) ∧
    (∀ (store : DepStore E V) (p : Prom E V),
        store.reload = none → store.load = some p →
        storeReloadResult store = p.result) ∧
    (∀ store : DepStore E V,
        store.reload = none → store.load = none →
        storeReloadResult store = Except.ok store.value) ∧
    (∀ (stores : StoresArg E V) (vs : List V),
        reloadAll stores = Except.ok vs ↔
          List.Forall₂ (fun s v => storeReloadResult s = Except.ok v)
            (getStoresArray stores) vs) ∧
    (∀ (stores : StoresArg E V) (pre : List (DepStore E V))
        (s : DepStore E V) (post : List (DepStore E V)) (e : E),
        getStoresArray stores = pre ++ s :: post →
        (∀ s' ∈ pre, ∃ v, storeReloadResult s' = Except.ok v) →
        storeReloadResult s = Except.error e →
        reloadAll stores = Except.error e) ∧
    (∀ stores : StoresArg E V,
        (∀ s ∈ getStoresArray stores, s.reload = none) →
        reloadAll stores = loadAll stores) := by
  refine ⟨?_, ?_, ?_, ?_, ?_, ?_⟩
  · intro store p h
    unfold storeReloadResult
    rw [h]
  · intro store p hr hl
    unfold storeReloadResult
    rw [hr, hl]
  · intro store hr hl
    unfold storeReloadResult
    rw [hr, hl]
  · intro stores vs
    unfold reloadAll
    rw [promiseAll_ok_iff]
    exact List.forall₂_map_left_iff
  · intro stores pre s post e harr hpre hs
    unfold reloadAll
    rw [harr, List.map_append, List.map_cons, hs]
    refine promiseAll_first_error _ e _ ?_
    intro x hx
    obtain ⟨s', hs', rfl⟩ := List.mem_map.mp hx
    exact hpre s' hs'
  · intro stores hnone
    unfold reloadAll loadAll
    congr 1
    refine List.map_congr_left ?_
    intro s hs
    unfold storeReloadResult storeLoadResult
    rw [hnone s hs]

/-- Witness for C4, mirroring the repository's own test cases: a bare
Reloadable reloads to `D`, a mixed list uses reload-or-load-or-read per
element in input order, and a rejecting reload rejects the aggregate with
exactly its error. -/
theorem claim_C4_witness :
    reloadAll (.one myReloadable) = Except.ok ["D"] ∧
    reloadAll (.many [myNonAsync, myLoadable, myReloadable]) =
      Except.ok ["A", "B", "D"] ∧
    reloadAll (.many [myLoadable, badLoadable]) = Except.error "F" ∧
    reloadAll (.many [myNonAsync, myLoadable]) =
      loadAll (.many [myNonAsync, myLoadable]) :=
  ⟨((claim_C4_reloadAll_spec String String).2.2.2.1
        (.one myReloadable) ["D"]).mpr (.cons rfl .nil),
    ((claim_C4_reloadAll_spec String String).2.2.2.1
        (.many [myNonAsync, myLoadable, myReloadable]) ["A", "B", "D"]).mpr
      (.cons rfl (.cons rfl (.cons rfl .nil))),
    (claim_C4_reloadAll_spec String String).2.2.2.2.1
      (.many [myLoadable, badLoadable]) [myLoadable] badLoadable [] "F"
      rfl
      (by
        intro s' hs'
        rw [List.mem_singleton] at hs'
        subst hs'
        exact ⟨"B", rfl⟩)
      rfl,
    (claim_C4_reloadAll_spec String String).2.2.2.2.2
      (.many [myNonAsync, myLoadable])
      (by
        intro s hs
        rw [show getStoresArray (StoresArg.many [myNonAsync, myLoadable]) =
          [myNonAsync, myLoadable] from rfl] at hs
        rcases List.mem_cons.mp hs with rfl | hs
        · rfl
        · rw [List.mem_singleton] at hs
          subst hs
          rfl)⟩

/-! ## Claim C5 -/

/-- The settled outcome of `load()` at depth `n` of a linear dependency chain
whose root (depth 0) rejects with `e`: each level `n + 1` is an engine store
over a single dependency whose `load()` promise is the level-`n` outcome, and
its result is what `loadDependenciesThenSet` returns for the unforced cycle
`loadAll` runs over that dependency. -/
def chainLoadRet {E V : Type} (f : Nat → MapArg V → Except E V)
    (sv : List V → String) (e : E) (v0 : V) (st : EngineState E V) :
    Nat → Except E V
  | 0 => .error e
  | n + 1 =>
    match (loadDependenciesThenSet false f sv st
        ⟨n, loadAll (.one
          (DepStore.mk v0 (some ⟨n, chainLoadRet f sv e v0 st n⟩) none))⟩
        [v0] false).ret with
    | some p => p.result
    | none => .ok v0

theorem chainLoadRet_step {E V : Type} (f : Nat → MapArg V → Except E V)
    (sv : List V → String) (e : E) (v0 : V) (st : EngineState E V) (n : Nat)
    (h : chainLoadRet f sv e v0 st n = .error e) :
    chainLoadRet f sv e v0 st (n + 1) = .error e := by
  have hall : loadAll (E := E) (V := V)
      (.one (DepStore.mk v0 (some ⟨n, chainLoadRet f sv e v0 st n⟩) none)) =
      .error e := by
    unfold loadAll getStoresArray storeLoadResult
    simp [promiseAll, h]
  unfold chainLoadRet
  rw [loadDependenciesThenSet_parent_error false f sv st _ [v0] false e hall]

/-- C5: when loading or reloading the dependency set rejects, the store's own
mapping load function is never invoked for that cycle and the cycle returns
the ancestor's rejection itself — the identical error, unwrapped; and along a
dependency chain of any depth above a failing ancestor, `load()` rejects with
that same root error at every level. -/
theorem claim_C5_ancestor_failure (E V : Type) :
    (∀ (stores : StoresArg E V) (isArr : Bool)
        (f : Nat → MapArg V → Except E V) (sv : List V → String)
        (st : EngineState E V) (pid : Nat) (depVals : List V)
        (force : Bool) (e : E),
        loadAll stores = Except.error e →
        loadDependenciesThenSet isArr f sv st ⟨pid, loadAll stores⟩
            depVals force =
          { state := { st with currentLoadPromise := some ⟨pid, .error e⟩ },
            ret := some ⟨pid, .error e⟩, started := none }) ∧
    (∀ (stores : StoresArg E V) (isArr : Bool)
        (f : Nat → MapArg V → Except E V) (sv : List V → String)
        (st : EngineState E V) (pid : Nat) (depVals : List V)
        (force : Bool) (e : E),
        reloadAll stores = Except.error e →
        loadDependenciesThenSet isArr f sv st ⟨pid, reloadAll stores⟩
            depVals force =
          { state := { st with currentLoadPromise := some ⟨pid, .error e⟩ },
            ret := some ⟨pid, .error e⟩, started := none }) ∧
    (∀ (f : Nat → MapArg V → Except E V) (sv : List V → String) (e : E)
        (v0 : V) (st : EngineState E V) (n : Nat),
        chainLoadRet f sv e v0 st (n + 1) = Except.error e) := by
  refine ⟨?_, ?_, ?_⟩
  · intro stores isArr f sv st pid depVals force e h
    exact loadDependenciesThenSet_parent_error isArr f sv st _ depVals force e h
  · intro stores isArr f sv st pid depVals force e h
    exact loadDependenciesThenSet_parent_error isArr f sv st _ depVals force e h
  · intro f sv e v0 st n
    induction n with
    | zero => exact chainLoadRet_step f sv e v0 st 0 rfl
    | succ n ih => exact chainLoadRet_step f sv e v0 st (n + 1) ih

/-- Witness for C5: a dependency list whose second element rejects with `E`
short-circuits the cycle with exactly that error and no mapping invocation;
and five levels above a failing root, `load()` still rejects with the root
error. -/
theorem claim_C5_witness :
    loadDependenciesThenSet false wMapFn wStringify (initState none)
        ⟨9, loadAll (.many [myLoadable, badLoadable])⟩ ["A", "A"] false =
      { state := { (initState none : EngineState String String) with
          currentLoadPromise := some ⟨9, .error "E"⟩ },
        ret := some ⟨9, .error "E"⟩, started := none } ∧
    chainLoadRet wMapFn wStringify "boom" "v" (initState none) 5 =
      Except.error "boom" :=
  ⟨(claim_C5_ancestor_failure String String).1
      (.many [myLoadable, badLoadable]) false wMapFn wStringify
      (initState none) 9 ["A", "A"] false "E" rfl,
    (claim_C5_ancestor_failure String String).2.2 wMapFn wStringify "boom" "v"
      (initState none) 4⟩

/-! ## Claim C6 -/

theorem loadCycleRun_mapping_error {E V : Type} (isArr : Bool)
    (f : Nat → MapArg V → Except E V) (sv : List V → String)
    (st : EngineState E V) (parent : Prom E (List V))
    (pvals depVals : List V) (force : Bool) (e : E)
    (hpar : parent.result = Except.ok pvals)
    (hkey : force = false → st.loadedValuesString ≠ some (sv depVals))
    (hmap : f st.mapCalls (mappingInput isArr depVals) = Except.error e) :
    (loadCycleRun isArr f sv st parent depVals force).2 =
        some ⟨st.nextPid, Except.error e⟩ ∧
    (loadCycleRun isArr f sv st parent depVals force).1.cell = st.cell := by
  cases force with
  | false =>
    have h := loadDependenciesThenSet_fresh isArr f sv st parent pvals depVals
      hpar (hkey rfl)
    unfold loadCycleRun
    rw [h]
    simp [thenHandler, hmap]
  | true =>
    have h := loadDependenciesThenSet_forced isArr f sv st parent pvals depVals
      hpar
    unfold loadCycleRun
    rw [h]
    simp [thenHandler, hmap]

/-- C6: when the mapping load function rejects during a cycle, the promise
that `load()`/`reload()` returns rejects with that original error and nothing
is published in that cycle — the cell keeps its prior value, which is the
configured `initial` value when no computation has ever succeeded. -/
theorem claim_C6_mapping_failure_keeps_cell (E V : Type) :
    (∀ (isArr : Bool) (f : Nat → MapArg V → Except E V) (sv : List V → String)
        (st : EngineState E V) (parent : Prom E (List V))
        (pvals depVals : List V) (force : Bool) (e : E),
        parent.result = Except.ok pvals →
        (force = false → st.loadedValuesString ≠ some (sv depVals)) →
        f st.mapCalls (mappingInput isArr depVals) = Except.error e →
        (loadCycleRun isArr f sv st parent depVals force).2 =
            some ⟨st.nextPid, Except.error e⟩ ∧
        (loadCycleRun isArr f sv st parent depVals force).1.cell = st.cell) ∧
    (∀ (isArr : Bool) (f : Nat → MapArg V → Except E V) (sv : List V → String)
        (parent : Prom E (List V)) (pvals depVals : List V) (force : Bool)
        (e : E) (initial : Option V),
        parent.result = Except.ok pvals →
        f 0 (mappingInput isArr depVals) = Except.error e →
        (loadCycleRun isArr f sv (initState initial) parent depVals
            force).1.cell = initial) := by
  refine ⟨?_, ?_⟩
  · intro isArr f sv st parent pvals depVals force e hpar hkey hmap
    exact loadCycleRun_mapping_error isArr f sv st parent pvals depVals force e
      hpar hkey hmap
  · intro isArr f sv parent pvals depVals force e initial hpar hmap
    exact (loadCycleRun_mapping_error isArr f sv (initState initial) parent
      pvals depVals force e hpar (fun _ h => Option.noConfusion h) hmap).2

/-- A mapping function that always rejects, for the failure witnesses. -/
def wFailMapFn : Nat → MapArg String → Except String String :=
  fun _ _ => Except.error "error"

/-- Witness for C6: with the always-rejecting mapping function and a fresh
store configured with initial value `initial`, the first load cycle rejects
with the mapping error and the cell still reads `initial`. -/
theorem claim_C6_witness :
    (loadCycleRun false wFailMapFn wStringify
        (initState (some "initial")) wOkParent ["A"] false).2 =
      some ⟨0, Except.error "error"⟩ ∧
    (loadCycleRun false wFailMapFn wStringify
        (initState (some "initial")) wOkParent ["A"] false).1.cell =
      some "initial" :=
  (claim_C6_mapping_failure_keeps_cell String String).1 false wFailMapFn
    wStringify (initState (some "initial")) wOkParent ["A"] ["A"] false
    "error" rfl (fun _ h => Option.noConfusion h) rfl

/-! ## Claim C10 -/

/-- C10: a mapping failure is cached for its dependency tuple: the failing
unforced cycle records the memoization key *before* the mapping function runs
and stores the rejected chain as `currentLoadPromise`, so every subsequent
unforced load whose dependency values serialize to the same key returns that
same rejected promise with no new mapping invocation; only a forced reload or
a differently-serializing tuple starts a new attempt. -/
theorem claim_C10_mapping_failure_cached (E V : Type) :
    (∀ (isArr : Bool) (f : Nat → MapArg V → Except E V) (sv : List V → String)
        (st : EngineState E V) (parent : Prom E (List V))
        (pvals depVals : List V) (e : E),
        parent.result = Except.ok pvals →
        st.loadedValuesString ≠ some (sv depVals) →
        f st.mapCalls (mappingInput isArr depVals) = Except.error e →
        (loadCycleRun isArr f sv st parent depVals false).1.loadedValuesString
            = some (sv depVals) ∧
        (loadCycleRun isArr f sv st parent depVals false).1.currentLoadPromise
            = some ⟨st.nextPid, Except.error e⟩ ∧
        (loadCycleRun isArr f sv st parent depVals false).2 =
            some ⟨st.nextPid, Except.error e⟩) ∧
    (∀ (isArr : Bool) (f : Nat → MapArg V → Except E V) (sv : List V → String)
        (st1 : EngineState E V) (parent2 : Prom E (List V))
        (pv2 depVals2 : List V),
        parent2.result = Except.ok pv2 →
        st1.loadedValuesString = some (sv depVals2) →
        loadCycleRun isArr f sv st1 parent2 depVals2 false =
          (st1, st1.currentLoadPromise)) ∧
    (∀ (isArr : Bool) (f : Nat → MapArg V → Except E V) (sv : List V → String)
        (st1 : EngineState E V) (parent3 : Prom E (List V))
        (pv3 depVals3 : List V),
        parent3.result = Except.ok pv3 →
        (loadDependenciesThenSet isArr f sv st1 parent3 depVals3
            true).started.isSome) ∧
    (∀ (isArr : Bool) (f : Nat → MapArg V → Except E V) (sv : List V → String)
        (st1 : EngineState E V) (parent4 : Prom E (List V))
        (pv4 depVals4 : List V),
        parent4.result = Except.ok pv4 →
        st1.loadedValuesString ≠ some (sv depVals4) →
        (loadDependenciesThenSet isArr f sv st1 parent4 depVals4
            false).started.isSome) := by
  refine ⟨?_, ?_, ?_, ?_⟩
  · intro isArr f sv st parent pvals depVals e hpar hkey hmap
    have h := loadDependenciesThenSet_fresh isArr f sv st parent pvals depVals
      hpar hkey
    unfold loadCycleRun
    rw [h]
    simp [thenHandler, hmap]
  · intro isArr f sv st1 parent2 pv2 depVals2 hpar hkey
    exact loadCycleRun_dedup isArr f sv st1 parent2 pv2 depVals2 hpar hkey
  · intro isArr f sv st1 parent3 pv3 depVals3 hpar
    rw [loadDependenciesThenSet_forced isArr f sv st1 parent3 pv3 depVals3
      hpar]
    rfl
  · intro isArr f sv st1 parent4 pv4 depVals4 hpar hkey
    rw [loadDependenciesThenSet_fresh isArr f sv st1 parent4 pv4 depVals4
      hpar hkey]
    rfl

/-- Witness for C10: the always-rejecting mapping function fails once; the
immediately following unforced load with the same key returns the identical
rejected promise and changes nothing, while a forced reload starts a new
mapping invocation. -/
theorem claim_C10_witness :
    (loadCycleRun false wFailMapFn wStringify (initState none) wOkParent
        ["A"] false).1.currentLoadPromise =
      some ⟨0, Except.error "error"⟩ ∧
    loadCycleRun false wFailMapFn wStringify
        (loadCycleRun false wFailMapFn wStringify (initState none) wOkParent
          ["A"] false).1 wOkParent ["A"] false =
      ((loadCycleRun false wFailMapFn wStringify (initState none) wOkParent
          ["A"] false).1,
        (loadCycleRun false wFailMapFn wStringify (initState none) wOkParent
          ["A"] false).1.currentLoadPromise) ∧
    (loadDependenciesThenSet false wFailMapFn wStringify
        (loadCycleRun false wFailMapFn wStringify (initState none) wOkParent
          ["A"] false).1 wOkParent ["A"] true).started.isSome :=
  ⟨((claim_C10_mapping_failure_cached String String).1 false wFailMapFn
      wStringify (initState none) wOkParent ["A"] ["A"] "error" rfl
      (fun h => Option.noConfusion h) rfl).2.1,
    (claim_C10_mapping_failure_cached String String).2.1 false wFailMapFn
      wStringify _ wOkParent ["A"] ["A"] rfl
      ((claim_C10_mapping_failure_cached String String).1 false wFailMapFn
        wStringify (initState none) wOkParent ["A"] ["A"] "error" rfl
        (fun h => Option.noConfusion h) rfl).1,
    (claim_C10_mapping_failure_cached String String).2.2.1 false wFailMapFn
      wStringify _ wOkParent ["A"] ["A"] rfl⟩

theorem loadCycleRun_parent_error {E V : Type} (isArr : Bool)
    (f : Nat → MapArg V → Except E V) (sv : List V → String)
    (st : EngineState E V) (pid : Nat) (x : Except E (List V))
    (depVals : List V) (force : Bool) (e : E)
    (h : x = Except.error e) :
    loadCycleRun isArr f sv st ⟨pid, x⟩ depVals force =
      ({ st with currentLoadPromise := some ⟨pid, .error e⟩ },
        some ⟨pid, .error e⟩) := by
  unfold loadCycleRun
  rw [loadDependenciesThenSet_parent_error isArr f sv st ⟨pid, x⟩ depVals
    force e h]

theorem loadCycleRun_forced {E V : Type} (isArr : Bool)
    (f : Nat → MapArg V → Except E V) (sv : List V → String)
    (st : EngineState E V) (pid : Nat) (x : Except E (List V))
    (pvals depVals : List V) (hx : x = Except.ok pvals) :
    loadCycleRun isArr f sv st ⟨pid, x⟩ depVals true =
      (thenHandler
        { st with
          currentLoadPromise :=
            some ⟨st.nextPid, f st.mapCalls (mappingInput isArr depVals)⟩,
          nextPid := st.nextPid + 1,
          mapCalls := st.mapCalls + 1 }
        ⟨st.nextPid, f st.mapCalls (mappingInput isArr depVals)⟩,
        some ⟨st.nextPid, f st.mapCalls (mappingInput isArr depVals)⟩) := by
  unfold loadCycleRun
  rw [loadDependenciesThenSet_forced isArr f sv st ⟨pid, x⟩ pvals depVals hx]

/-! ## Claim C7 -/

/-- C7: the `reload` property is present on an async store's returned object
exactly when the store was constructed with the reloadable flag or at least
one dependency exposes `reload`: for `asyncWritable` and `asyncDerived` its
presence equals `reloadable || anyReloadable(stores)`, and for
`asyncReadable` (empty dependency set) it equals the reloadable flag alone. -/
theorem claim_C7_reload_exposure (E V : Type) :
    ∀ (stores : StoresArg E V) (f : Nat → MapArg V → Except E V)
      (w : V → List V → Except E (Option V)) (g : Nat → Except E V)
      (reloadable : Bool) (sv : List V → String),
      (asyncWritable stores f w reloadable sv).reload.isSome =
        (reloadable || anyReloadable stores) ∧
      (asyncDerived stores f reloadable sv).reload.isSome =
        (reloadable || anyReloadable stores) ∧
      (asyncReadable g reloadable sv).reload.isSome = reloadable := by
  intro stores f w g reloadable sv
  refine ⟨?_, ?_, ?_⟩
  · unfold asyncWritable
    cases hrb : reloadable || anyReloadable stores <;> simp [hrb]
  · unfold asyncDerived asyncWritable
    cases hrb : reloadable || anyReloadable stores <;> simp [hrb]
  · unfold asyncReadable asyncDerived asyncWritable
    cases reloadable <;> simp [anyReloadable, getStoresArray]

/-! ## Claim C8 -/

/-- C8: `set(value)` publishes `value` to the cell synchronously, before any
asynchronous step; it then resolves dependency values with a non-forced
`loadAll` and invokes the write mapping function with `(value, parentValues)`;
the write function's resolved result is republished as the cell value iff it
is not `undefined`; a write-function rejection rejects `set`'s promise with
the original error while the optimistic value stays published (no rollback);
and for a store constructed reloadable a forced reload cycle runs afterward —
its parent failure rejects `set`'s promise, and its mapping result is
published unconditionally. -/
theorem claim_C8_set_write_path (E V : Type) :
    (∀ (st : EngineState E V) (value : V),
        (setOptimistic st value).cell = some value) ∧
    (∀ (stores : StoresArg E V) (f : Nat → MapArg V → Except E V)
        (w : V → List V → Except E (Option V)) (reloadable : Bool)
        (sv : List V → String) (st : EngineState E V) (value : V) (e : E),
        loadAll stores = Except.error e →
        setStoreValueThenWrite stores f w reloadable sv st value =
          (setOptimistic st value, Except.error e)) ∧
    (∀ (stores : StoresArg E V) (f : Nat → MapArg V → Except E V)
        (w : V → List V → Except E (Option V)) (reloadable : Bool)
        (sv : List V → String) (st : EngineState E V) (value : V)
        (pv : List V) (e : E),
        loadAll stores = Except.ok pv →
        w value pv = Except.error e →
        setStoreValueThenWrite stores f w reloadable sv st value =
          (setOptimistic st value, Except.error e)) ∧
    (∀ (stores : StoresArg E V) (f : Nat → MapArg V → Except E V)
        (w : V → List V → Except E (Option V)) (sv : List V → String)
        (st : EngineState E V) (value : V) (pv : List V) (r : V),
        loadAll stores = Except.ok pv →
        w value pv = Except.ok (some r) →
        setStoreValueThenWrite stores f w false sv st value =
          ({ setOptimistic st value with cell := some r }, Except.ok ())) ∧
    (∀ (stores : StoresArg E V) (f : Nat → MapArg V → Except E V)
        (w : V → List V → Except E (Option V)) (sv : List V → String)
        (st : EngineState E V) (value : V) (pv : List V),
        loadAll stores = Except.ok pv →
        w value pv = Except.ok none →
        setStoreValueThenWrite stores f w false sv st value =
          (setOptimistic st value, Except.ok ())) ∧
    (∀ (stores : StoresArg E V) (f : Nat → MapArg V → Except E V)
        (w : V → List V → Except E (Option V)) (sv : List V → String)
        (st : EngineState E V) (value : V) (pv : List V) (wr : Option V)
        (e : E),
        loadAll stores = Except.ok pv →
        w value pv = Except.ok wr →
        reloadAll stores = Except.error e →
        (setStoreValueThenWrite stores f w true sv st value).2 =
          Except.error e) ∧
    (∀ (stores : StoresArg E V) (f : Nat → MapArg V → Except E V)
        (w : V → List V → Except E (Option V)) (sv : List V → String)
        (st : EngineState E V) (value : V) (pv rv : List V) (wr : Option V)
        (v : V),
        loadAll stores = Except.ok pv →
        w value pv = Except.ok wr →
        reloadAll stores = Except.ok rv →
        f st.mapCalls (mappingInput stores.isArray (currentValues stores)) =
          Except.ok v →
        (setStoreValueThenWrite stores f w true sv st value).1.cell = some v ∧
        (setStoreValueThenWrite stores f w true sv st value).2 =
          Except.ok ()) := by
  refine ⟨fun st value => rfl, ?_, ?_, ?_, ?_, ?_, ?_⟩
  · intro stores f w reloadable sv st value e hl
    unfold setStoreValueThenWrite
    rw [hl]
  · intro stores f w reloadable sv st value pv e hl hw
    unfold setStoreValueThenWrite
    rw [hl]
    simp only [hw]
  · intro stores f w sv st value pv r hl hw
    unfold setStoreValueThenWrite
    rw [hl]
    simp only [hw]
    rfl
  · intro stores f w sv st value pv hl hw
    unfold setStoreValueThenWrite
    rw [hl]
    simp only [hw]
    rfl
  · intro stores f w sv st value pv wr e hl hw hr
    unfold setStoreValueThenWrite
    rw [hl]
    simp only [hw]
    cases wr <;>
    · rw [loadCycleRun_parent_error stores.isArray f sv _ _ _
        (currentValues stores) true e hr]
      rfl
  · intro stores f w sv st value pv rv wr v hl hw hr hf
    unfold setStoreValueThenWrite
    rw [hl]
    simp only [hw]
    cases wr <;>
    · rw [loadCycleRun_forced stores.isArray f sv _ _ _ rv
        (currentValues stores) hr]
      simp [thenHandler, setOptimistic, hf]

/-- A write mapping function that always rejects. -/
def wWriteErr : String → List String → Except String (Option String) :=
  fun _ _ => Except.error "writeError"

/-- A write mapping function resolving to a canonical value. -/
def wWriteOk : String → List String → Except String (Option String) :=
  fun _ _ => Except.ok (some "written")

/-- Witness for C8: with one loadable dependency, a rejecting write keeps the
optimistic value published and rejects `set`'s promise with the write error,
while a write resolving to `written` republishes it as the cell value. -/
theorem claim_C8_witness :
    setStoreValueThenWrite (.many [myLoadable]) wMapFn wWriteErr false
        wStringify (initState none) "opt" =
      (setOptimistic (initState none) "opt", Except.error "writeError") ∧
    setStoreValueThenWrite (.many [myLoadable]) wMapFn wWriteOk false
        wStringify (initState none) "opt" =
      ({ setOptimistic (initState none) "opt" with cell := some "written" },
        Except.ok ()) :=
  ⟨(claim_C8_set_write_path String String).2.2.1 (.many [myLoadable]) wMapFn
      wWriteErr false wStringify (initState none) "opt" ["B"] "writeError"
      rfl rfl,
    (claim_C8_set_write_path String String).2.2.2.1 (.many [myLoadable])
      wMapFn wWriteOk wStringify (initState none) "opt" ["B"] "written"
      rfl rfl⟩

/-! ## Claim C9 -/

/-- C9: the synchronous `derived` store exposes `load` (resp. `reload`) iff at
least one direct dependency exposes it, and when present the member performs
no recomputation of its own: it resolves to the store's already-recomputed
current value after `loadAll` (resp. `reloadAll`) over the dependency set
resolves, and rejects with the dispatcher's error when it rejects. -/
theorem claim_C9_derived_capabilities (E V T : Type) :
    ∀ (stores : StoresArg E V) (mf : MapArg V → T),
      ((derived stores mf : DerivedObj E T).load.isSome =
        anyLoadable stores) ∧
      ((derived stores mf : DerivedObj E T).reload.isSome =
        anyReloadable stores) ∧
      (anyLoadable stores = true → ∀ vs, loadAll stores = Except.ok vs →
        (derived stores mf : DerivedObj E T).load =
          some (Except.ok (derivedValue stores mf))) ∧
      (anyLoadable stores = true → ∀ e, loadAll stores = Except.error e →
        (derived stores mf : DerivedObj E T).load =
          some (Except.error e)) ∧
      (anyReloadable stores = true → ∀ vs, reloadAll stores = Except.ok vs →
        (derived stores mf : DerivedObj E T).reload =
          some (Except.ok (derivedValue stores mf))) ∧
      (anyReloadable stores = true → ∀ e, reloadAll stores = Except.error e →
        (derived stores mf : DerivedObj E T).reload =
          some (Except.error e)) := by
  intro stores mf
  refine ⟨?_, ?_, ?_, ?_, ?_, ?_⟩
  · unfold derived
    cases h : anyLoadable stores <;> simp [h]
  · unfold derived
    cases h : anyReloadable stores <;> simp [h]
  · intro hany vs hl
    unfold derived
    simp only [hany]
    unfold loadDependencies
    rw [hl]
    simp
  · intro hany e hl
    unfold derived
    simp only [hany]
    unfold loadDependencies
    rw [hl]
    simp
  · intro hany vs hr
    unfold derived
    simp only [hany]
    unfold loadDependencies
    rw [hr]
    simp
  · intro hany e hr
    unfold derived
    simp only [hany]
    unfold loadDependencies
    rw [hr]
    simp

/-- A concrete synchronous mapping function joining value arrays with `+`. -/
def wDerivedMapFn : MapArg String → String
  | .arr vs => String.intercalate "+" vs
  | .single (some v) => v
  | .single none => ""

/-- Witness for C9: over `[myNonAsync, myLoadable]` the derived store exposes
`load` (resolving, after `loadAll`, to the recomputed current value `A+A`)
but no `reload`; over `[myLoadable, badLoadable]` its `load` is the
dispatcher's rejection `E`. -/
theorem claim_C9_witness :
    (derived (.many [myNonAsync, myLoadable]) wDerivedMapFn
        : DerivedObj String String).load = some (Except.ok "A+A") ∧
    (derived (.many [myNonAsync, myLoadable]) wDerivedMapFn
        : DerivedObj String String).reload.isSome = false ∧
    (derived (.many [myLoadable, badLoadable]) wDerivedMapFn
        : DerivedObj String String).load = some (Except.error "E") :=
  ⟨(claim_C9_derived_capabilities String String String
        (.many [myNonAsync, myLoadable]) wDerivedMapFn).2.2.1 rfl ["A", "B"]
      rfl,
    (claim_C9_derived_capabilities String String String
        (.many [myNonAsync, myLoadable]) wDerivedMapFn).2.1,
    (claim_C9_derived_capabilities String String String
        (.many [myLoadable, badLoadable]) wDerivedMapFn).2.2.2.1 rfl "E"
      rfl⟩

/-! ## Claim C2 -/

/-- The first triggered cycle of the race scenario: fresh store, dependency
value `A` at resume time; it starts the mapping chain that will resolve to
`fA` (the mock's first result). -/
def raceCycle1 : CycleResult String String :=
  loadDependenciesThenSet true wMapFn wStringify (initState none)
    ⟨100, Except.ok ["A"]⟩ ["A"] false

/-- The second (last-)triggered cycle: the dependency changed to `B` before
this cycle resumed; it starts the chain resolving to `fB`. -/
def raceCycle2 : CycleResult String String :=
  loadDependenciesThenSet true wMapFn wStringify raceCycle1.state
    ⟨101, Except.ok ["B"]⟩ ["B"] false

/-- The engine state after both mapping chains settle in the adversarial
wall-clock order: the last-triggered chain (`fB`) resolves first, then the
earlier-triggered chain (`fA`) resolves and its `.then` handler runs last. -/
def raceFinalState : EngineState String String :=
  thenHandler
    (thenHandler raceCycle2.state (raceCycle2.started.getD ⟨0, .error ""⟩))
    (raceCycle1.started.getD ⟨0, .error ""⟩)

/-- C2 counterexample: two dependency-change triggers produce two mapping
chains; the chain of the chronologically last-triggered computation resolves
to `fB` and is the recorded `currentLoadPromise`, but because every chain's
resolution handler publishes unconditionally, the earlier-triggered
computation's later-arriving resolution overwrites the cell: the published
value ends at `fA`, not the last-triggered `fB` — the earlier-triggered
resolution is observable through the cell, contradicting the claim. -/
theorem claim_C2_counterexample :
    raceCycle2.ret = some ⟨1, Except.ok "fB"⟩ ∧
    raceCycle2.state.currentLoadPromise = some ⟨1, Except.ok "fB"⟩ ∧
    raceFinalState.cell = some "fA" ∧
    some "fA" ≠ some "fB" :=
  ⟨rfl, rfl, rfl, by decide⟩

/-- C2 amended: every cycle that starts a mapping chain synchronously installs
that chain as `currentLoadPromise` and returns it, and an unforced load with
unchanged dependency values returns that last-installed promise — so
`load()`/`reload()` after the last trigger does reflect the last-triggered
computation; the cell, however, reflects whichever computation's chain
resolved last in wall-clock time, because every chain's resolution handler
publishes its value unconditionally when it arrives. -/
theorem claim_C2_amended (E V : Type) :
    (∀ (isArr : Bool) (f : Nat → MapArg V → Except E V) (sv : List V → String)
        (st : EngineState E V) (parent : Prom E (List V)) (depVals : List V)
        (force : Bool) (p : Prom E V),
        (loadDependenciesThenSet isArr f sv st parent depVals force).started =
          some p →
        (loadDependenciesThenSet isArr f sv st parent depVals
            force).state.currentLoadPromise = some p ∧
        (loadDependenciesThenSet isArr f sv st parent depVals force).ret =
          some p) ∧
    (∀ (st : EngineState E V) (p : Prom E V) (v : V),
        p.result = Except.ok v → (thenHandler st p).cell = some v) ∧
    (∀ (isArr : Bool) (f : Nat → MapArg V → Except E V) (sv : List V → String)
        (st : EngineState E V) (parent : Prom E (List V))
        (pvals depVals : List V),
        parent.result = Except.ok pvals →
        st.loadedValuesString = some (sv depVals) →
        (loadDependenciesThenSet isArr f sv st parent depVals false).ret =
          st.currentLoadPromise) := by
  refine ⟨?_, ?_, ?_⟩
  · intro isArr f sv st parent depVals force p hstart
    cases hp : parent.result with
    | error e =>
      rw [loadDependenciesThenSet_parent_error isArr f sv st parent depVals
        force e hp] at hstart
      cases hstart
    | ok pvals =>
      cases force with
      | true =>
        rw [loadDependenciesThenSet_forced isArr f sv st parent pvals depVals
          hp] at hstart ⊢
        injection hstart with h
        subst h
        exact ⟨rfl, rfl⟩
      | false =>
        by_cases hkey : st.loadedValuesString = some (sv depVals)
        · rw [dedup_hit isArr f sv st parent pvals depVals hp hkey] at hstart
          cases hstart
        · rw [loadDependenciesThenSet_fresh isArr f sv st parent pvals depVals
            hp hkey] at hstart ⊢
          injection hstart with h
          subst h
          exact ⟨rfl, rfl⟩
  · intro st p v h
    unfold thenHandler
    rw [h]
  · intro isArr f sv st parent pvals depVals hp hkey
    rw [dedup_hit isArr f sv st parent pvals depVals hp hkey]

/-- Witness for the amended C2, on the race scenario itself: the
last-triggered cycle's chain is installed as `currentLoadPromise` (so a later
`load()` returns `fB`), while the earlier chain's handler publishes `fA` when
it arrives. -/
theorem claim_C2_amended_witness :
    raceCycle2.state.currentLoadPromise = some ⟨1, Except.ok "fB"⟩ ∧
    (thenHandler raceCycle2.state ⟨0, Except.ok "fA"⟩).cell = some "fA" :=
  ⟨((claim_C2_amended String String).1 true wMapFn wStringify raceCycle1.state
      ⟨101, Except.ok ["B"]⟩ ["B"] false ⟨1, Except.ok "fB"⟩ rfl).1,
    (claim_C2_amended String String).2.1 raceCycle2.state
      ⟨0, Except.ok "fA"⟩ "fA" rfl⟩

end FancyStores
